import Mathlib

/-!
Verification of the incremental change-detection and state-reconciliation
engine of the Github-Utils repository, as a shallow embedding in Lean 4.

The Python modules under `src/modules` are translated definition by
definition: dictionaries keyed by strings become association lists
(`List (String × α)` with last-write-wins insertion), `datetime`
timestamps become abstract `Nat` instants passed explicitly, JSON files
become `Option` layers (absent / malformed / parsed), and functions that
talk to the remote GitHub API take the remote answer as an explicit
argument (an `Except` value when the call can fail).
-/

set_option autoImplicit false

namespace GithubUtils

/-- A commit as handled by the news pipeline and by
`filter_commits_since_last_processed`: a record with a `sha` field (the
other payload is a message we keep for concreteness). -/
structure Commit where
  sha : String
  message : String := ("")
  deriving DecidableEq, Repr

/-- A commit as returned by the comparison API in
`GitHubFetcher.compare_branch_with_parent` (jq projects
`{sha, message, author}`; the sha is truncated to 7 characters by the
query itself, which we keep abstract). -/
structure RawCommit where
  sha : String
  message : String := ("")
  author : String := ("")
  deriving DecidableEq, Repr

/-- Association-list lookup, modelling Python `dict.get(k)`:
the value stored at `k`, if any. -/
def lookupA {α : Type} (m : List (String × α)) (k : String) : Option α :=
  (m.find? (fun p => p.1 = k)).map (fun p => p.2)

/-- Remove every entry stored at key `k` (helper for `insertA`). -/
def eraseKey {α : Type} (m : List (String × α)) (k : String) : List (String × α) :=
  match m with
  | [] => []
  | p :: m => if p.1 = k then eraseKey m k else p :: eraseKey m k

/-- Association-list insertion, modelling Python `dict[k] = v`:
the entry at `k` is replaced (observationally, via `lookupA`) and all
other entries are untouched. -/
def insertA {α : Type} (m : List (String × α)) (k : String) (v : α) : List (String × α) :=
  (k, v) :: eraseKey m k

@[simp] theorem lookupA_nil {α : Type} (k : String) : lookupA ([] : List (String × α)) k = none := rfl

theorem lookupA_cons {α : Type} (p : String × α) (m : List (String × α)) (k : String) :
    lookupA (p :: m) k = if p.1 = k then some p.2 else lookupA m k := by
  by_cases h : p.1 = k <;> simp [lookupA, List.find?, h]

@[simp] theorem lookupA_insertA_self {α : Type} (m : List (String × α)) (k : String) (v : α) :
    lookupA (insertA m k v) k = some v := by
  simp [insertA, lookupA_cons]

theorem lookupA_eraseKey_ne {α : Type} (m : List (String × α)) (k k' : String) (h : ¬ (k' = k)) :
    lookupA (eraseKey m k) k' = lookupA m k' := by
  induction m with
  | nil => rfl
  | cons p m ih =>
    by_cases hk : p.1 = k
    · have hne : ¬ (p.1 = k') := by
        intro hh
        exact h (hh ▸ hk)
      rw [eraseKey, if_pos hk, ih, lookupA_cons, if_neg hne]
    · rw [eraseKey, if_neg hk, lookupA_cons, lookupA_cons, ih]

theorem lookupA_insertA_ne {α : Type} (m : List (String × α)) (k k' : String) (v : α)
    (h : ¬ (k' = k)) : lookupA (insertA m k v) k' = lookupA m k' := by
  rw [insertA, lookupA_cons]
  have hkk : ¬ (k = k') := fun hh => h hh.symm
  rw [if_neg hkk]
  exact lookupA_eraseKey_ne m k k' h

/-- Python truthiness of an optional string: `None` and the empty string
are falsy, every other string is truthy. -/
def strOptTruthy : Option String → Bool
  | none => false
  | some s => ¬ (s = "")

/-- Python's `s.startswith(pre)`: `pre` is a prefix of `s`, as a
character-list prefix test. -/
def strStartsWith (s pre : String) : Bool :=
  List.isPrefixOf pre.toList s.toList

namespace CommitUtils

/-- The `for i, commit in enumerate(commits): if commit['sha'].startswith(...): break`
loop of `filter_commits_since_last_processed`: index of the first commit
whose sha starts with the anchor, if any. -/
def findFirstMatch (lp : String) : List Commit → Option Nat
  | [] => none
  | c :: cs =>
      if strStartsWith c.sha lp then some 0
      else (findFirstMatch lp cs).map (fun i => i + 1)

/-- `commit_utils.filter_commits_since_last_processed` from
`src/modules/commit_utils.py`: returns `commits` unchanged when the
anchor is falsy (None / empty) or the list is empty or no sha matches;
otherwise drops everything up to and including the first match. -/
def filter_commits_since_last_processed (commits : List Commit)
    (last_processed_commit : Option String) : List Commit :=
  if strOptTruthy last_processed_commit = false ∨ commits = [] then commits
  else
    match findFirstMatch (last_processed_commit.getD ("")) commits with
    | some i => commits.drop (i + 1)
    | none => commits

theorem findFirstMatch_eq_none_iff (lp : String) (l : List Commit) :
    findFirstMatch lp l = none ↔ ∀ c ∈ l, ¬ (strStartsWith c.sha lp = true) := by
  induction l with
  | nil => simp [findFirstMatch]
  | cons c cs ih =>
    by_cases h : strStartsWith c.sha lp
    · simp [findFirstMatch, h]
    · simp [findFirstMatch, h, ih]

theorem findFirstMatch_spec (lp : String) (l : List Commit) (i : Nat)
    (h : findFirstMatch lp l = some i) :
    ∃ hi : i < l.length, strStartsWith (l.get ⟨i, hi⟩).sha lp = true ∧
      ∀ j (hj : j < i), ¬ (strStartsWith (l.get ⟨j, Nat.lt_trans hj hi⟩).sha lp = true) := by
  induction l generalizing i with
  | nil => simp [findFirstMatch] at h
  | cons c cs ih =>
    by_cases hc : strStartsWith c.sha lp
    · simp only [findFirstMatch, hc, if_true, Option.some.injEq] at h
      subst h
      exact ⟨Nat.succ_pos _, hc, fun j hj => absurd hj (Nat.not_lt_zero j)⟩
    · simp only [findFirstMatch, hc, if_false] at h
      cases hfm : findFirstMatch lp cs with
      | none => rw [hfm] at h; simp at h
      | some i₀ =>
        rw [hfm] at h
        simp at h
        subst h
        obtain ⟨hi₀, hget, hbefore⟩ := ih i₀ hfm
        refine ⟨Nat.succ_lt_succ hi₀, hget, ?_⟩
        intro j hj
        match j with
        | 0 => simpa using hc
        | j + 1 => exact hbefore j (Nat.lt_of_succ_lt_succ hj)

theorem findFirstMatch_of_first (lp : String) (l : List Commit) (i : Nat) (hi : i < l.length)
    (hget : strStartsWith (l.get ⟨i, hi⟩).sha lp = true)
    (hbefore : ∀ j (hj : j < i), ¬ (strStartsWith (l.get ⟨j, Nat.lt_trans hj hi⟩).sha lp = true)) :
    findFirstMatch lp l = some i := by
  induction l generalizing i with
  | nil => exact absurd hi (Nat.not_lt_zero i)
  | cons c cs ih =>
    match i with
    | 0 =>
      simp only [List.get] at hget
      simp [findFirstMatch, hget]
    | i + 1 =>
      have hc : ¬ (strStartsWith c.sha lp = true) := by
        have := hbefore 0 (Nat.succ_pos i)
        simpa using this
      have htail := ih i (Nat.lt_of_succ_lt_succ hi) hget
        (fun j hj => hbefore (j + 1) (Nat.succ_lt_succ hj))
      simp [findFirstMatch, hc, htail]

end CommitUtils

/-- Per-branch state stored under `state[repo_key]['branches'][branch_name]`
(see `StateManager.update_branch_state`). `Option` fields model keys that a
Python `dict.get` may find absent; timestamps are abstract `Nat` instants. -/
structure BranchSt where
  last_commit : Option String := none
  commits_ahead : Nat := 0
  last_check : Option Nat := none
  deriving DecidableEq, Repr

/-- Per-fork-branch state stored under
`state[repo_key]['processed_forks'][fork]['branches'][branch]`; the tracked
sha field is `last_ahead_commit` (commits ahead of the parent). -/
structure ForkBranchSt where
  last_ahead_commit : Option String := none
  commits_ahead : Nat := 0
  last_check : Option Nat := none
  deriving DecidableEq, Repr

/-- Per-fork state stored under `state[repo_key]['processed_forks'][fork]`. -/
structure ForkSt where
  branches : List (String × ForkBranchSt) := []
  default_branch : String := ("main")
  total_commits_ahead : Nat := 0
  last_check : Option Nat := none
  deriving DecidableEq, Repr

/-- Per-repository state: the value stored at `state[repo_key]`. -/
structure RepoSt where
  last_commit : Option String := none
  last_release : Option String := none
  last_check : Option Nat := none
  branches : List (String × BranchSt) := []
  processed_forks : List (String × ForkSt) := []
  last_branch_check : Option Nat := none
  last_fork_check : Option Nat := none
  deriving DecidableEq, Repr

/-- The persisted store: a map from repository key (`owner/name`) to its
`RepoSt`, modelled as an association list. -/
abbrev State := List (String × RepoSt)

/-- One branch analysis record as built by
`ForksProcessor._process_fork_branches` (both the entries of
`all_processed_branches` and, with `original_commits` left out, the
entries of `branch_analyses`). -/
structure BranchAnalysis where
  branch_name : String
  commits_ahead : Nat := 0
  is_default : Bool := false
  commits : List Commit := []
  original_commits : Option (List Commit) := none
  original_commit_count : Nat := 0
  last_commit_timestamp : Option Nat := none
  deriving DecidableEq, Repr

/-- The `fork_info` dictionary handed to `StateManager.update_fork_state`
(remaining fields of the consolidated fork analysis are not read by the
state update and are omitted). -/
structure ForkInfo where
  fork_name : String
  branches : List BranchAnalysis := []
  all_processed_branches : Option (List BranchAnalysis) := none
  commits_ahead : Nat := 0
  deriving DecidableEq, Repr

namespace StateManager

/-- `StateManager.update_branch_state` from `src/modules/state_manager.py`
(lines 42-67): records, for one branch, the last sha of the commit list it
was handed (`None` when the list is empty), the commits-ahead count and
the check timestamp, then writes the repository entry back. -/
def update_branch_state (state : State) (repo_key branch_name : String)
    (branch_commits : List Commit) (commits_ahead : Nat) (now : Nat) : State :=
  let current := (lookupA state repo_key).getD {}
  let bst : BranchSt :=
    { last_commit := (branch_commits.getLast?).map Commit.sha
      commits_ahead := commits_ahead
      last_check := some now }
  let current' : RepoSt :=
    { current with
        branches := insertA current.branches branch_name bst
        last_branch_check := some now }
  insertA state repo_key current'

/-- The per-branch record written by `StateManager.update_fork_state`:
for state saving it prefers `original_commits` (the unfiltered comparison
result) over the filtered `commits` when taking the latest sha. -/
def branchStateOfAnalysis (now : Nat) (ba : BranchAnalysis) : ForkBranchSt :=
  let original := ba.original_commits.getD ba.commits
  let latest : Option String :=
    if ¬ (original = []) then (original.getLast?).map Commit.sha
    else if ¬ (ba.commits = []) then (ba.commits.getLast?).map Commit.sha
    else none
  { last_ahead_commit := latest
    commits_ahead := ba.commits_ahead
    last_check := some now }

/-- `StateManager.update_fork_state` from `src/modules/state_manager.py`
(lines 69-122): rebuilds the fork's branch map from
`all_processed_branches` (falling back to `branches`), replaces the
fork's entry in `processed_forks`, and stamps the fork-check time. -/
def update_fork_state (state : State) (repo_key : String) (fork_info : ForkInfo)
    (now : Nat) : State :=
  let updated := (lookupA state repo_key).getD {}
  let fork_key := fork_info.fork_name
  let branches_to_save := fork_info.all_processed_branches.getD fork_info.branches
  let branch_states := branches_to_save.foldl
    (fun m ba => insertA m ba.branch_name (branchStateOfAnalysis now ba)) []
  let fork_st : ForkSt :=
    { branches := branch_states
      default_branch :=
        ((fork_info.branches.find? (fun b => b.is_default)).map
          (fun b => b.branch_name)).getD ("main")
      total_commits_ahead := fork_info.commits_ahead
      last_check := some now }
  let updated' : RepoSt :=
    { updated with
        processed_forks := insertA updated.processed_forks fork_key fork_st
        last_fork_check := some now }
  insertA state repo_key updated'

/-- `StateManager.should_process_fork_by_state` from
`src/modules/state_manager.py` (lines 124-165): the multi-branch fork
gate, true when state tracking is off, the fork is unseen, or some
analysed branch's current latest commit differs from the stored one. -/
def should_process_fork_by_state (state : State) (repo_key fork_name : String)
    (branch_analyses : List BranchAnalysis) (save_state_enabled : Bool) : Bool :=
  if save_state_enabled = false then true
  else
    let repo_state := (lookupA state repo_key).getD {}
    match lookupA repo_state.processed_forks fork_name with
    | none => true
    | some fork_state =>
        branch_analyses.any (fun ba =>
          if ba.commits = [] then false
          else
            let current_latest := (ba.commits.getLast?).map Commit.sha
            let saved_latest :=
              ((lookupA fork_state.branches ba.branch_name).getD {}).last_ahead_commit
            ¬ (current_latest = saved_latest))

/-- `StateManager.should_process_branch_by_state` from
`src/modules/state_manager.py` (lines 167-197): true when state tracking
is off; false when the candidate commit list is empty; true for an
unseen branch; otherwise true exactly when the latest candidate sha
differs from the stored one. -/
def should_process_branch_by_state (state : State) (repo_key branch_name : String)
    (branch_commits : List Commit) (save_state_enabled : Bool) : Bool :=
  if save_state_enabled = false then true
  else if branch_commits = [] then false
  else
    let repo_state := (lookupA state repo_key).getD {}
    match lookupA repo_state.branches branch_name with
    | none => true
    | some bst =>
        ¬ ((branch_commits.getLast?).map Commit.sha = bst.last_commit)

/-- Loop body of the branch scan in `needs_repository_processing`
(lines 225-231): a remotely listed branch absent from stored state goes
to the new list, a stored branch with a differing sha to the changed
list. -/
def branchDiffStep (branches : List (String × BranchSt))
    (acc : List String × List String) (p : String × String) :
    List String × List String :=
  match lookupA branches p.1 with
  | none => (acc.1 ++ [p.1], acc.2)
  | some bst =>
      if ¬ (bst.last_commit = some p.2) then (acc.1, acc.2 ++ [p.1]) else acc

/-- `StateManager.needs_repository_processing` from
`src/modules/state_manager.py` (lines 199-234): compares the stored main
sha and every remotely listed branch sha with stored state, returning
the needs-processing flag together with the new and changed branch
lists. -/
def needs_repository_processing (state : State) (repo_key : String)
    (current_main_sha : String) (current_branch_shas : List (String × String)) :
    Bool × List String × List String :=
  let repo_state := (lookupA state repo_key).getD {}
  let main_changed : Bool := ¬ (repo_state.last_commit = some current_main_sha)
  let pair := current_branch_shas.foldl (branchDiffStep repo_state.branches) ([], [])
  (main_changed || ¬ (pair.1 = []) || ¬ (pair.2 = []), pair.1, pair.2)

/-- `StateManager.main_branch_unchanged` from `src/modules/state_manager.py`
(lines 236-251). -/
def main_branch_unchanged (state : State) (repo_key : String)
    (current_main_sha : String) : Bool :=
  ((lookupA state repo_key).getD {}).last_commit = some current_main_sha

end StateManager

namespace GitHubFetcher

/-- The dictionary produced by `GitHubFetcher.compare_branch_with_parent`
(`src/modules/github_fetcher.py`, lines 267-276): ahead/behind counts,
status, the ordered commit list and the touched-file list. -/
structure Comparison where
  ahead_by : Nat := 0
  behind_by : Nat := 0
  status : String := ("")
  commits : List RawCommit := []
  files : List String := []
  deriving DecidableEq, Repr

/-- The zero-valued fallback `compare_branch_with_parent` returns when the
remote call raises. -/
def zero_comparison : Comparison :=
  { ahead_by := 0, behind_by := 0, status := ("error"), commits := [], files := [] }

/-- `GitHubFetcher.compare_branch_with_parent`: the remote answer is passed
in as an `Except` (an `error` models the `RuntimeError` raised by
`_run_gh_command`); on failure the zero-valued result is returned instead
of propagating the error. -/
def compare_branch_with_parent (api_result : Except String Comparison) : Comparison :=
  match api_result with
  | Except.ok r => r
  | Except.error _ => zero_comparison

/-- Result shape of `GitHubFetcher.get_branch_comparison`
(`src/modules/github_fetcher.py`, lines 329-349): `ahead_by` may be the
`-1` orphan sentinel, hence `Int`. -/
structure BranchComparisonResult where
  ahead_by : Int := 0
  behind_by : Int := 0
  is_orphan : Bool := false
  deriving DecidableEq, Repr

/-- Python's substring test `pat in s`. -/
def strContains (s pat : String) : Bool :=
  decide ( List.IsInfix pat.toList s.toList)

/-- `GitHubFetcher.get_branch_comparison` error handling: a failure whose
message mentions a missing common ancestor yields the orphan sentinel
(`ahead_by = -1`), any other failure yields the zero result; the error is
never propagated. -/
def get_branch_comparison (api_result : Except String BranchComparisonResult) :
    BranchComparisonResult :=
  match api_result with
  | Except.ok r => r
  | Except.error e =>
      if strContains e ("No common ancestor") then
        { ahead_by := -1, behind_by := 0, is_orphan := true }
      else
        { ahead_by := 0, behind_by := 0 }

end GitHubFetcher

namespace ForksProcessor

/-- `ForksProcessor._transform_comparison_commits`: reshape comparison-API
commits into the summary-generator structure; the sha is carried over
unchanged. -/
def transform_comparison_commits (cs : List RawCommit) : List Commit :=
  cs.map (fun c => { sha := c.sha, message := c.message })

/-- The per-fork inputs of `ForksProcessor._process_fork_branches`: the
current state snapshot, identities, configuration limits, and the remote
comparison answers (one `Comparison` per branch name, the result of
`compare_branch_with_parent` against the parent's default branch). -/
structure ForkCtx where
  state : State
  repo_key : String
  fork_full : String
  fork_default : String
  compare : String → GitHubFetcher.Comparison
  min_commits_ahead : Nat
  analyze_default_branch_always : Bool
  max_commits : Nat
  save_state : Bool

/-- The state lookup
`state.get(repo_key, {}).get('processed_forks', {}).get(fork, {}).get('branches', {})`
performed inside the branch loop. -/
def ForkCtx.saved_branches (ctx : ForkCtx) : List (String × ForkBranchSt) :=
  ((lookupA ((lookupA ctx.state ctx.repo_key).getD {}).processed_forks
      ctx.fork_full).getD {}).branches

/-- The `should_include` predicate of `_process_fork_branches` (line 211):
ahead of the threshold, or the fork's default branch under
`analyze_default_branch_always` with at least one commit ahead. -/
def shouldInclude (ctx : ForkCtx) (bname : String) (commits_ahead : Nat) : Bool :=
  (ctx.min_commits_ahead ≤ commits_ahead) ||
    ((bname = ctx.fork_default) && ctx.analyze_default_branch_always && (0 < commits_ahead))

/-- One iteration of the branch loop of `_process_fork_branches`
(lines 198-307), producing the entry appended to
`all_processed_branches` — or nothing when the branch fails the
`should_include` gate (timestamp fetching is display-only and omitted). -/
def process_branch (ctx : ForkCtx) (bname : String) : Option BranchAnalysis :=
  let comparison := ctx.compare bname
  let commits_ahead := comparison.ahead_by
  let is_default : Bool := bname = ctx.fork_default
  if shouldInclude ctx bname commits_ahead then
    let branch_commits₀ := transform_comparison_commits comparison.commits
    let last_processed :=
      ((lookupA ctx.saved_branches bname).getD {}).last_ahead_commit
    let branch_commits :=
      if strOptTruthy last_processed && ¬ (branch_commits₀ = []) then
        CommitUtils.filter_commits_since_last_processed branch_commits₀ last_processed
      else branch_commits₀
    some
      { branch_name := bname
        commits_ahead := branch_commits.length
        is_default := is_default
        commits := branch_commits
        original_commits := some (transform_comparison_commits comparison.commits)
        original_commit_count := commits_ahead }
  else none

/-- The entry appended to `branch_analyses` (lines 299-305) for a branch
whose filtered commit list is non-empty: same data with the commit list
truncated to `max_commits` and no `original_commits` key. -/
def branch_output (max_commits : Nat) (ba : BranchAnalysis) : BranchAnalysis :=
  { branch_name := ba.branch_name
    commits_ahead := ba.commits_ahead
    is_default := ba.is_default
    commits := ba.commits.take max_commits
    last_commit_timestamp := ba.last_commit_timestamp }

/-- `ForksProcessor._process_fork_branches` consolidated: runs the branch
loop over the prioritized branch names, drops the fork when nothing
summarizable remains or the state gate rejects it, and otherwise returns
the consolidated fork analysis (readme and overall commit list omitted:
they do not feed the state). -/
def process_fork_branches (ctx : ForkCtx) (prioritized : List String) : Option ForkInfo :=
  let aps := prioritized.filterMap (process_branch ctx)
  let retained := aps.filter (fun ba => ¬ (ba.commits_ahead = 0))
  let bas := retained.map (branch_output ctx.max_commits)
  let total := retained.foldl (fun acc ba => acc + ba.commits_ahead) 0
  if bas = [] ∧ (aps = [] ∨
      (aps.any (fun b => b.is_default && (0 < b.commits_ahead))) = false) then
    none
  else if (StateManager.should_process_fork_by_state ctx.state ctx.repo_key
      ctx.fork_full bas ctx.save_state) = false then
    none
  else
    some
      { fork_name := ctx.fork_full
        branches := bas
        all_processed_branches := some aps
        commits_ahead := total }

/-- `ForksProcessor._should_process_fork_by_state`
(`src/modules/forks_processor.py`, lines 364-395), the stage-2 triage.
Timestamps are abstract `Nat` instants; a missing or unparseable
timestamp is modelled as `none` (in the source both the missing-key path
and the parse-failure path return `True`). -/
def should_process_fork_by_state (save_state : Bool) (state : State)
    (repo_key fork_full_name : String) (fork_updated_at : Option Nat) : Bool :=
  if save_state = false then true
  else
    let processed_forks := ((lookupA state repo_key).getD {}).processed_forks
    match lookupA processed_forks fork_full_name with
    | none => true
    | some saved_fork_state =>
        match fork_updated_at with
        | none => true
        | some fork_update_time =>
            match saved_fork_state.last_check with
            | none => true
            | some last_check_time => last_check_time < fork_update_time

end ForksProcessor

namespace NewsProcessor

/-- The default-branch fast path of `NewsProcessor._process_repository`
(`src/modules/news_processor.py`, lines 28-42): with state saving on and
the main head sha equal to the stored one, the repository is declared
unchanged (all further work skipped) exactly when
`needs_repository_processing` reports nothing to do. -/
def declares_unchanged (save_state : Bool) (state : State) (repo_key : String)
    (current_main_sha : String) (current_branch_shas : List (String × String)) : Bool :=
  save_state &&
    StateManager.main_branch_unchanged state repo_key current_main_sha &&
    !(StateManager.needs_repository_processing state repo_key current_main_sha
        current_branch_shas).1

end NewsProcessor

namespace ConfigManager

/-- `ConfigManager.load_state` (`src/modules/config_manager.py`,
lines 162-184). The file system is passed in as two snapshots of the
state file: `before` (at entry) and `after_migration` (after the
legacy-migration attempt, consulted only when the file was absent).
`none` = file absent; `some none` = file exists with malformed JSON;
`some (some st)` = file exists and parses to `st`. Malformed JSON raises
(`Except.error`), an absent file after migration yields the empty map. -/
def load_state (before after_migration : Option (Option State))
    (state_file : String) : Except String State :=
  match before with
  | some (some st) => Except.ok st
  | some none => Except.error ("Invalid JSON in " ++ state_file)
  | none =>
      match after_migration with
      | some (some st) => Except.ok st
      | some none => Except.error ("Invalid JSON in " ++ state_file)
      | none => Except.ok []

end ConfigManager

namespace ParallelBaseProcessor

/-- One repository task as executed by `ParallelBaseProcessor.execute`:
`_process_repository` in both concrete processors reads the shared state
only at its own repository key (`self.state.get(repo_key, ...)`) and
writes only that key (`state[repo_key] = ...` inside the
`StateManager` updates), so a task is a key together with a function
from the key's previous entry to its new entry. -/
structure Task where
  repo_key : String
  run : Option RepoSt → RepoSt

/-- Effect of one completed task on the shared state map. -/
def run_task (state : State) (t : Task) : State :=
  insertA state t.repo_key (t.run (lookupA state t.repo_key))

/-- Effect of a whole batch, applied in completion order: the worker pool
(any size) executes every submitted repository task exactly once, and the
final persisted map is the in-memory map after the last completion. -/
def run_tasks (state : State) (ts : List Task) : State :=
  ts.foldl run_task state

end ParallelBaseProcessor

namespace StateManager

/-- The non-fork arm of `StateManager.get_branch_state`
(`src/modules/state_manager.py`, lines 265-275): the stored entry for a
repository branch, if any. -/
def get_branch_state (state : State) (repo_key branch_name : String) : Option BranchSt :=
  lookupA ((lookupA state repo_key).getD {}).branches branch_name

/-- The fork arm of `StateManager.get_branch_state` (via `get_fork_state`):
the stored entry for a fork branch, if any. -/
def get_fork_branch_state (state : State) (repo_key fork_name branch_name : String) :
    Option ForkBranchSt :=
  lookupA ((lookupA ((lookupA state repo_key).getD {}).processed_forks
      fork_name).getD {}).branches branch_name

end StateManager

theorem getLast?_drop_of_ne_nil (l : List Commit) :
    ∀ n : Nat, ¬ (l.drop n = []) → (l.drop n).getLast? = l.getLast? := by
  induction l with
  | nil => intro n h; exact absurd (List.drop_nil) h
  | cons x xs ih =>
    intro n h
    match n with
    | 0 => rfl
    | n + 1 =>
      rw [List.drop_succ_cons] at h ⊢
      rw [ih n h]
      match xs, h with
      | y :: ys, _ => rw [List.getLast?_cons_cons]
      | [], h => exact absurd (List.drop_nil) h

/-- The filtered commit list is always a suffix of the unfiltered one; in
particular, when it is non-empty its last element is the unfiltered
latest commit. -/
theorem filter_commits_getLast? (commits : List Commit) (anchor : Option String)
    (h : ¬ (CommitUtils.filter_commits_since_last_processed commits anchor = [])) :
    (CommitUtils.filter_commits_since_last_processed commits anchor).getLast? =
      commits.getLast? := by
  unfold CommitUtils.filter_commits_since_last_processed at h ⊢
  by_cases hc : strOptTruthy anchor = false ∨ commits = []
  · rw [if_pos hc]
  · rw [if_neg hc] at h ⊢
    cases hfm : CommitUtils.findFirstMatch (anchor.getD ("")) commits with
    | none => rfl
    | some i =>
        rw [hfm] at h
        exact getLast?_drop_of_ne_nil commits (i + 1) h

theorem lookupA_foldl_insertA_not_mem {α β : Type} (key : β → String) (val : β → α) :
    ∀ (l : List β) (init : List (String × α)) (k : String),
      ¬ (k ∈ l.map key) →
      lookupA (l.foldl (fun m b => insertA m (key b) (val b)) init) k = lookupA init k := by
  intro l
  induction l with
  | nil => intro init k _; rfl
  | cons b l ih =>
    intro init k hk
    have hk1 : ¬ (k = key b) := fun h => hk (by simp [h])
    have hk2 : ¬ (k ∈ l.map key) := fun h => hk (by simp [h])
    rw [List.foldl_cons, ih _ k hk2, lookupA_insertA_ne _ _ _ _ hk1]

/-- Lookup after building a map by repeated dict insertion: with no
duplicate keys, each record ends up stored at its own key. -/
theorem lookupA_foldl_insertA_mem {α β : Type} (key : β → String) (val : β → α) :
    ∀ (l : List β) (init : List (String × α)) (b : β),
      (l.map key).Nodup → b ∈ l →
      lookupA (l.foldl (fun m b => insertA m (key b) (val b)) init) (key b) = some (val b) := by
  intro l
  induction l with
  | nil => intro init b _ hb; exact absurd hb (List.not_mem_nil b)
  | cons a l ih =>
    intro init b hnd hb
    rw [List.map_cons, List.nodup_cons] at hnd
    rw [List.foldl_cons]
    rcases List.mem_cons.mp hb with rfl | hb'
    · rw [lookupA_foldl_insertA_not_mem key val l _ (key b) hnd.1]
      exact lookupA_insertA_self _ _ _
    · exact ih _ b hnd.2 hb'

/-- Claim C10: with state tracking enabled,
`should_process_branch_by_state` returns `False` whenever the candidate
commit list is empty, for every state, repository key and branch name —
in particular also for a branch that has no stored state at all. -/
theorem c10_empty_candidates_never_processed (state : State) (repo_key branch_name : String) :
    StateManager.should_process_branch_by_state state repo_key branch_name [] true = false := by
  rfl

/-- Claim C2: `filter_commits_since_last_processed` returns the list
unchanged when the anchor is null/empty, the list is empty, or no sha
starts with the anchor; otherwise it returns exactly the subsequence
strictly after the first matching index. -/
theorem c2_filter_commits_spec (C : List Commit) (s : String) (hs : ¬ (s = "")) :
    (CommitUtils.filter_commits_since_last_processed C none = C) ∧
    (CommitUtils.filter_commits_since_last_processed C (some ("")) = C) ∧
    (CommitUtils.filter_commits_since_last_processed [] (some s) = []) ∧
    ((∀ c ∈ C, ¬ (strStartsWith c.sha s = true)) →
      CommitUtils.filter_commits_since_last_processed C (some s) = C) ∧
    (∀ i (hi : i < C.length), strStartsWith (C.get ⟨i, hi⟩).sha s = true →
      (∀ j (hj : j < i), ¬ (strStartsWith (C.get ⟨j, Nat.lt_trans hj hi⟩).sha s = true)) →
      CommitUtils.filter_commits_since_last_processed C (some s) = C.drop (i + 1)) := by
  have ht : strOptTruthy (some s) = true := by
    simp [strOptTruthy, hs]
  refine ⟨?_, ?_, ?_, ?_, ?_⟩
  · simp [CommitUtils.filter_commits_since_last_processed, strOptTruthy]
  · simp [CommitUtils.filter_commits_since_last_processed, strOptTruthy]
  · simp [CommitUtils.filter_commits_since_last_processed]
  · intro hnone
    by_cases hC : C = []
    · simp [CommitUtils.filter_commits_since_last_processed, hC]
    · have hfm : CommitUtils.findFirstMatch s C = none :=
        (CommitUtils.findFirstMatch_eq_none_iff s C).mpr hnone
      simp [CommitUtils.filter_commits_since_last_processed, ht, hC, hfm]
  · intro i hi hget hbefore
    have hC : ¬ (C = []) := by
      intro h
      rw [h] at hi
      exact absurd hi (by simp)
    have hfm : CommitUtils.findFirstMatch s C = some i :=
      CommitUtils.findFirstMatch_of_first s C i hi hget hbefore
    simp [CommitUtils.filter_commits_since_last_processed, ht, hC, hfm]

/-- Concrete commit list used to exercise the filter theorems. -/
def exCommits : List Commit :=
  [{ sha := ("aa1") }, { sha := ("bb2") }, { sha := ("cc3") }]

/-- Witness for C2: the filter applied at concrete inputs, with every
hypothesis of `c2_filter_commits_spec` discharged. -/
theorem c2_witness :
    CommitUtils.filter_commits_since_last_processed exCommits (some ("bb")) =
      [{ sha := ("cc3") }] ∧
    CommitUtils.filter_commits_since_last_processed exCommits (some ("zz")) = exCommits := by
  constructor
  · have h := (c2_filter_commits_spec exCommits ("bb") (by decide)).2.2.2.2 1 (by decide)
      (by decide) (by decide)
    rw [h]
    rfl
  · exact (c2_filter_commits_spec exCommits ("zz") (by decide)).2.2.2.1 (by decide)

/-- Claim C7: loading a persisted state file hard-errors on malformed
JSON in an existing file, never silently substitutes an empty (or any
other) state for an existing store's content, and yields the empty map
when the file is absent even after the migration attempt. -/
theorem c7_load_state_spec :
    (∀ (after_migration : Option (Option State)) (f : String),
      ConfigManager.load_state (some none) after_migration f =
        Except.error ("Invalid JSON in " ++ f)) ∧
    (∀ f : String, ConfigManager.load_state none none f = Except.ok ([] : State)) ∧
    (∀ (content : Option State) (after_migration : Option (Option State)) (f : String)
        (st : State),
      ConfigManager.load_state (some content) after_migration f = Except.ok st →
      content = some st) := by
  refine ⟨fun _ _ => rfl, fun _ => rfl, ?_⟩
  intro content after_migration f st h
  cases content with
  | none => exact absurd h (by simp [ConfigManager.load_state])
  | some st' =>
    simp only [ConfigManager.load_state, Except.ok.injEq] at h
    rw [h]

theorem branchStateOfAnalysis_unfiltered (now : Nat) (ba : BranchAnalysis) (oc : List Commit)
    (hoc : ba.original_commits = some oc) (hne : ¬ (oc = [])) :
    StateManager.branchStateOfAnalysis now ba =
      { last_ahead_commit := (oc.getLast?).map Commit.sha
        commits_ahead := ba.commits_ahead
        last_check := some now } := by
  unfold StateManager.branchStateOfAnalysis
  rw [hoc]
  simp [hne]

/-- After `update_fork_state`, each branch analysis saved in
`branches_to_save` (no duplicate branch names) is stored at its name
under the fork's entry, as `branchStateOfAnalysis` describes. -/
theorem update_fork_state_lookup (state : State) (repo_key : String) (fi : ForkInfo)
    (now : Nat) (l : List BranchAnalysis) (ba : BranchAnalysis)
    (hap : fi.all_processed_branches = some l)
    (hnd : (l.map (fun b => b.branch_name)).Nodup) (hmem : ba ∈ l) :
    StateManager.get_fork_branch_state (StateManager.update_fork_state state repo_key fi now)
      repo_key fi.fork_name ba.branch_name =
      some (StateManager.branchStateOfAnalysis now ba) := by
  unfold StateManager.get_fork_branch_state StateManager.update_fork_state
  rw [hap]
  simp only [Option.getD_some, lookupA_insertA_self]
  exact lookupA_foldl_insertA_mem (fun b => b.branch_name)
    (StateManager.branchStateOfAnalysis now) l [] ba hnd hmem

/-- Unfiltered comparison result used in the C1 counterexample. -/
def c1_unfiltered : List Commit := [{ sha := ("aaa111") }]

/-- Counterexample to C1 as stated: run `update_branch_state` on a cycle
whose unfiltered comparison result is `c1_unfiltered` but whose filtered
new-only list is empty; the stored `last_commit` is `none`, not the
unfiltered latest sha `aaa111`. -/
theorem c1_counterexample :
    CommitUtils.filter_commits_since_last_processed c1_unfiltered (some ("aaa111")) = [] ∧
    StateManager.get_branch_state
      (StateManager.update_branch_state [] ("o/r") ("dev")
        (CommitUtils.filter_commits_since_last_processed c1_unfiltered (some ("aaa111"))) 0 0)
      ("o/r") ("dev") =
      some { last_commit := none, commits_ahead := 0, last_check := some 0 } ∧
    ¬ ((c1_unfiltered.getLast?).map Commit.sha = none) := by
  refine ⟨by decide, ?_, by decide⟩
  rfl

/-- Claim C1, amended: fork branches always record the latest sha of the
unfiltered (`original_commits`) comparison result, even when the filtered
list is empty; repository branches record the last sha of the filtered
list handed to `update_branch_state`, which equals the unfiltered latest
sha whenever the filtered list is non-empty (the filtered list being a
suffix of the unfiltered one), and `none` when it is empty. -/
theorem c1_amended :
    (∀ (state : State) (repo_key : String) (fi : ForkInfo) (now : Nat)
        (l : List BranchAnalysis) (ba : BranchAnalysis) (oc : List Commit),
      fi.all_processed_branches = some l →
      (l.map (fun b => b.branch_name)).Nodup →
      ba ∈ l → ba.original_commits = some oc → ¬ (oc = []) →
      StateManager.get_fork_branch_state
          (StateManager.update_fork_state state repo_key fi now)
          repo_key fi.fork_name ba.branch_name =
        some { last_ahead_commit := (oc.getLast?).map Commit.sha
               commits_ahead := ba.commits_ahead
               last_check := some now }) ∧
    (∀ (state : State) (repo_key branch_name : String) (unfiltered : List Commit)
        (anchor : Option String) (ahead now : Nat),
      ¬ (CommitUtils.filter_commits_since_last_processed unfiltered anchor = []) →
      StateManager.get_branch_state
          (StateManager.update_branch_state state repo_key branch_name
            (CommitUtils.filter_commits_since_last_processed unfiltered anchor) ahead now)
          repo_key branch_name =
        some { last_commit := (unfiltered.getLast?).map Commit.sha
               commits_ahead := ahead
               last_check := some now }) := by
  constructor
  · intro state repo_key fi now l ba oc hap hnd hmem hoc hne
    rw [update_fork_state_lookup state repo_key fi now l ba hap hnd hmem,
      branchStateOfAnalysis_unfiltered now ba oc hoc hne]
  · intro state repo_key branch_name unfiltered anchor ahead now hne
    unfold StateManager.get_branch_state StateManager.update_branch_state
    simp only [lookupA_insertA_self, Option.getD_some]
    rw [filter_commits_getLast? unfiltered anchor hne]

/-- Branch analysis used in the C1 witness: zero filtered commits, one
unfiltered commit. -/
def c1_ba : BranchAnalysis :=
  { branch_name := ("dev"), commits_ahead := 0, commits := []
    original_commits := some [{ sha := ("aaa111") }] }

/-- Fork info used in the C1 witness. -/
def c1_fi : ForkInfo :=
  { fork_name := ("f/x"), branches := [], all_processed_branches := some [c1_ba]
    commits_ahead := 0 }

/-- Witness for C1 (amended): both arms applied at concrete inputs. -/
theorem c1_witness :
    StateManager.get_fork_branch_state
        (StateManager.update_fork_state [] ("o/r") c1_fi 7) ("o/r") ("f/x") ("dev") =
      some { last_ahead_commit := some ("aaa111"), commits_ahead := 0, last_check := some 7 } ∧
    StateManager.get_branch_state
        (StateManager.update_branch_state [] ("o/r") ("dev")
          (CommitUtils.filter_commits_since_last_processed
            [{ sha := ("aaa") }, { sha := ("bbb") }] (some ("aaa"))) 3 7)
        ("o/r") ("dev") =
      some { last_commit := some ("bbb"), commits_ahead := 3, last_check := some 7 } := by
  constructor
  · exact c1_amended.1 [] ("o/r") c1_fi 7 [c1_ba] c1_ba [{ sha := ("aaa111") }]
      rfl (by decide) (by decide) rfl (by decide)
  · exact c1_amended.2 [] ("o/r") ("dev") [{ sha := ("aaa") }, { sha := ("bbb") }]
      (some ("aaa")) 3 7 (by decide)

theorem process_branch_name (ctx : ForksProcessor.ForkCtx) (b : String) (ba : BranchAnalysis)
    (h : ForksProcessor.process_branch ctx b = some ba) : ba.branch_name = b := by
  simp only [ForksProcessor.process_branch] at h
  split at h
  · injection h with h'
    rw [← h']
  · exact absurd h (by simp)

theorem process_branch_of_include (ctx : ForksProcessor.ForkCtx) (b : String)
    (hinc : ForksProcessor.shouldInclude ctx b (ctx.compare b).ahead_by = true) :
    ∃ ba, ForksProcessor.process_branch ctx b = some ba ∧ ba.branch_name = b ∧
      ba.original_commits =
        some (ForksProcessor.transform_comparison_commits (ctx.compare b).commits) := by
  simp only [ForksProcessor.process_branch, hinc, if_true]
  exact ⟨_, rfl, rfl, rfl⟩

theorem filterMap_process_branch_names (ctx : ForksProcessor.ForkCtx) :
    ∀ l : List String,
      List.Sublist ((l.filterMap (ForksProcessor.process_branch ctx)).map
        (fun b => b.branch_name)) l := by
  intro l
  induction l with
  | nil => simp
  | cons b l ih =>
    rw [List.filterMap_cons]
    cases h : ForksProcessor.process_branch ctx b with
    | none => exact ih.cons b
    | some ba =>
      rw [List.map_cons, process_branch_name ctx b ba h]
      exact ih.cons₂ b

/-- Fork context used in the C3 counterexample: one non-default branch,
zero commits ahead of the parent, threshold 1. -/
def c3_ctx : ForksProcessor.ForkCtx :=
  { state := [], repo_key := ("o/r"), fork_full := ("f/x"), fork_default := ("main")
    compare := fun _ => { ahead_by := 0 }
    min_commits_ahead := 1, analyze_default_branch_always := true, max_commits := 10
    save_state := true }

/-- Counterexample to C3 as stated: the branch `feature` is compared
against the parent's default branch (it is in the prioritized list and
its comparison is consumed), yet — failing the inclusion gate — it is
recorded nowhere: the bookkeeping list is empty and the whole fork
consolidation returns nothing. -/
theorem c3_counterexample :
    ForksProcessor.process_branch c3_ctx ("feature") = none ∧
    [("feature")].filterMap (ForksProcessor.process_branch c3_ctx) = [] ∧
    ForksProcessor.process_fork_branches c3_ctx [("feature")] = none := by
  refine ⟨rfl, rfl, rfl⟩

/-- Claim C3, amended: every compared branch that passes the inclusion
gate (`aheadBy ≥ minCommitsAhead`, or the fork's default branch under
`analyze_default_branch_always` with `aheadBy > 0`) is recorded in the
`all_processed_branches` bookkeeping with the unfiltered comparison
commits, and `update_fork_state` stores its unfiltered latest sha —
regardless of whether its filtered commit list was empty; a compared
branch failing the gate is not recorded. -/
theorem c3_consolidation_amended (ctx : ForksProcessor.ForkCtx) (prioritized : List String)
    (b : String) (now : Nat) (state : State) (repo_key : String) (fi : ForkInfo)
    (hmem : b ∈ prioritized) (hnd : prioritized.Nodup)
    (hinc : ForksProcessor.shouldInclude ctx b (ctx.compare b).ahead_by = true)
    (hne : ¬ (ForksProcessor.transform_comparison_commits (ctx.compare b).commits = []))
    (hap : fi.all_processed_branches =
      some (prioritized.filterMap (ForksProcessor.process_branch ctx))) :
    ∃ ba, ForksProcessor.process_branch ctx b = some ba ∧
      ba ∈ prioritized.filterMap (ForksProcessor.process_branch ctx) ∧
      ba.original_commits =
        some (ForksProcessor.transform_comparison_commits (ctx.compare b).commits) ∧
      StateManager.get_fork_branch_state
          (StateManager.update_fork_state state repo_key fi now) repo_key fi.fork_name b =
        some { last_ahead_commit :=
                 ((ForksProcessor.transform_comparison_commits
                   (ctx.compare b).commits).getLast?).map Commit.sha
               commits_ahead := ba.commits_ahead
               last_check := some now } := by
  obtain ⟨ba, hpb, hname, horig⟩ := process_branch_of_include ctx b hinc
  have hmemf : ba ∈ prioritized.filterMap (ForksProcessor.process_branch ctx) :=
    List.mem_filterMap.mpr ⟨b, hmem, hpb⟩
  have hndf : ((prioritized.filterMap (ForksProcessor.process_branch ctx)).map
      (fun b => b.branch_name)).Nodup :=
    hnd.sublist (filterMap_process_branch_names ctx prioritized)
  refine ⟨ba, hpb, hmemf, horig, ?_⟩
  have hlook := update_fork_state_lookup state repo_key fi now
    (prioritized.filterMap (ForksProcessor.process_branch ctx)) ba hap hndf hmemf
  rw [hname] at hlook
  rw [hlook, branchStateOfAnalysis_unfiltered now ba _ horig hne]

/-- Fork context used in the C3 witness: one branch, one commit ahead. -/
def c3w_ctx : ForksProcessor.ForkCtx :=
  { state := [], repo_key := ("o/r"), fork_full := ("f/x"), fork_default := ("main")
    compare := fun _ => { ahead_by := 1, commits := [{ sha := ("abc1234") }] }
    min_commits_ahead := 1, analyze_default_branch_always := true, max_commits := 10
    save_state := true }

/-- Fork info produced for the C3 witness from the branch loop. -/
def c3w_fi : ForkInfo :=
  { fork_name := ("f/x")
    all_processed_branches :=
      some ([("dev")].filterMap (ForksProcessor.process_branch c3w_ctx)) }

/-- Witness for C3 (amended): a compared, included branch is recorded with
the unfiltered latest sha. -/
theorem c3_witness :
    StateManager.get_fork_branch_state
      (StateManager.update_fork_state [] ("o/r") c3w_fi 4) ("o/r") ("f/x") ("dev") =
      some { last_ahead_commit := some ("abc1234"), commits_ahead := 1, last_check := some 4 } := by
  obtain ⟨ba, hpb, _, _, hlook⟩ := c3_consolidation_amended c3w_ctx [("dev")] ("dev") 4 []
    ("o/r") c3w_fi (by decide) (by decide) (by decide) (by decide) rfl
  have hconc : ForksProcessor.process_branch c3w_ctx ("dev") =
      some { branch_name := ("dev"), commits_ahead := 1, is_default := false
             commits := [{ sha := ("abc1234") }]
             original_commits := some [{ sha := ("abc1234") }]
             original_commit_count := 1 } := by decide
  rw [hconc] at hpb
  injection hpb with h
  rw [← h] at hlook
  exact hlook

/-- Stored state used in the C5 counterexample and witness: one fork
checked at instant 5. -/
def c5_state : State :=
  [(("o/r"), { processed_forks := [(("f/x"), { last_check := some 5 })] })]

/-- Counterexample to C5 as stated: a stored fork whose `updatedAt` (3) is
not newer than the stored `lastCheck` (5) is skipped (`false`), while the
claim says exactly such forks become candidates. -/
theorem c5_counterexample :
    ForksProcessor.should_process_fork_by_state true c5_state ("o/r") ("f/x") (some 3) = false ∧
    (3 : Nat) ≤ 5 ∧
    ¬ (lookupA ((lookupA c5_state ("o/r")).getD {}).processed_forks ("f/x") = none) := by
  refine ⟨rfl, by omega, by decide⟩

/-- Claim C5, amended: a previously stored fork becomes a candidate
exactly when its `updatedAt` is strictly newer than the stored
`lastCheck`; a fork with a missing timestamp on either side is a
candidate, and an entirely new fork is always a candidate. -/
theorem c5_triage_amended (state : State) (repo_key fork_name : String) :
    (lookupA ((lookupA state repo_key).getD {}).processed_forks fork_name = none →
      ∀ u, ForksProcessor.should_process_fork_by_state true state repo_key fork_name u = true) ∧
    (∀ fs, lookupA ((lookupA state repo_key).getD {}).processed_forks fork_name = some fs →
      (ForksProcessor.should_process_fork_by_state true state repo_key fork_name none = true) ∧
      (fs.last_check = none →
        ∀ ut, ForksProcessor.should_process_fork_by_state true state repo_key fork_name
          (some ut) = true) ∧
      (∀ lc, fs.last_check = some lc →
        ∀ ut, (ForksProcessor.should_process_fork_by_state true state repo_key fork_name
          (some ut) = true ↔ lc < ut))) := by
  constructor
  · intro h u
    simp [ForksProcessor.should_process_fork_by_state, h]
  · intro fs h
    refine ⟨?_, ?_, ?_⟩
    · simp [ForksProcessor.should_process_fork_by_state, h]
    · intro hlc ut
      simp [ForksProcessor.should_process_fork_by_state, h, hlc]
    · intro lc hlc ut
      simp [ForksProcessor.should_process_fork_by_state, h, hlc]

/-- Witness for C5 (amended): a stored fork with a strictly newer
`updatedAt` is a candidate, and an unseen fork is a candidate. -/
theorem c5_witness :
    ForksProcessor.should_process_fork_by_state true c5_state ("o/r") ("f/x") (some 7) = true ∧
    ForksProcessor.should_process_fork_by_state true c5_state ("o/r") ("other/x") (some 0) = true := by
  constructor
  · exact (((c5_triage_amended c5_state ("o/r") ("f/x")).2
      { last_check := some 5 } (by decide)).2.2 5 rfl 7).mpr (by omega)
  · exact (c5_triage_amended c5_state ("o/r") ("other/x")).1 (by decide) (some 0)

/-- Counterexample to C6 as stated: a failing comparison call whose error
message mentions a missing common ancestor makes `get_branch_comparison`
return the orphan sentinel `ahead_by = -1`, not a zero-valued result. -/
theorem c6_counterexample :
    GitHubFetcher.get_branch_comparison (Except.error ("No common ancestor")) =
      { ahead_by := -1, behind_by := 0, is_orphan := true } ∧
    ¬ ((GitHubFetcher.get_branch_comparison
        (Except.error ("No common ancestor"))).ahead_by = 0) := by
  refine ⟨?_, ?_⟩ <;> decide

/-- Claim C6, amended: on any failing remote call,
`compare_branch_with_parent` returns the zero-valued result
(`ahead_by = 0`, empty commit list) and `get_branch_comparison` returns
the zero pair — except that an error message mentioning a missing common
ancestor yields the orphan sentinel `ahead_by = -1`; neither function
propagates the error. -/
theorem c6_comparator_amended (e : String) :
    (GitHubFetcher.compare_branch_with_parent (Except.error e) =
      GitHubFetcher.zero_comparison) ∧
    ((GitHubFetcher.compare_branch_with_parent (Except.error e)).ahead_by = 0 ∧
      (GitHubFetcher.compare_branch_with_parent (Except.error e)).commits = []) ∧
    (GitHubFetcher.strContains e ("No common ancestor") = false →
      GitHubFetcher.get_branch_comparison (Except.error e) =
        { ahead_by := 0, behind_by := 0 }) ∧
    (GitHubFetcher.strContains e ("No common ancestor") = true →
      GitHubFetcher.get_branch_comparison (Except.error e) =
        { ahead_by := -1, behind_by := 0, is_orphan := true }) := by
  refine ⟨rfl, ⟨rfl, rfl⟩, ?_, ?_⟩
  · intro h
    simp [GitHubFetcher.get_branch_comparison, h]
  · intro h
    simp [GitHubFetcher.get_branch_comparison, h]

/-- Witness for C6 (amended): the comparator applied to a concrete
generic failure and checked against the zero-valued results. -/
theorem c6_witness :
    GitHubFetcher.get_branch_comparison (Except.error ("boom")) =
      { ahead_by := 0, behind_by := 0 } ∧
    GitHubFetcher.compare_branch_with_parent (Except.error ("boom")) =
      GitHubFetcher.zero_comparison :=
  ⟨(c6_comparator_amended ("boom")).2.2.1 (by decide), (c6_comparator_amended ("boom")).1⟩

/-- Witness for C7: the three arms of `c7_load_state_spec` applied at
concrete file contents. -/
theorem c7_witness :
    ConfigManager.load_state (some none) none ("news_state.json") =
      Except.error ("Invalid JSON in news_state.json") ∧
    ConfigManager.load_state none none ("news_state.json") = Except.ok ([] : State) ∧
    (some ([] : State) = some ([] : State)) := by
  refine ⟨?_, ?_, ?_⟩
  · exact c7_load_state_spec.1 none ("news_state.json")
  · exact c7_load_state_spec.2.1 ("news_state.json")
  · exact c7_load_state_spec.2.2 (some []) none ("news_state.json") [] rfl

/-- Boolean form of "this remotely listed branch is stored but its sha
differs" (proof-side companion of `branchDiffStep`). -/
def branchChangedB (branches : List (String × BranchSt)) (p : String × String) : Bool :=
  match lookupA branches p.1 with
  | none => false
  | some bst => ¬ (bst.last_commit = some p.2)

theorem branchDiff_foldl (br : List (String × BranchSt)) :
    ∀ (shas : List (String × String)) (acc : List String × List String),
      shas.foldl (StateManager.branchDiffStep br) acc =
        (acc.1 ++ (shas.filter (fun p => (lookupA br p.1).isNone)).map Prod.fst,
         acc.2 ++ (shas.filter (branchChangedB br)).map Prod.fst) := by
  intro shas
  induction shas with
  | nil => intro acc; simp
  | cons p shas ih =>
    intro acc
    rw [List.foldl_cons, List.filter_cons, List.filter_cons]
    cases h : lookupA br p.1 with
    | none =>
      have hstep : StateManager.branchDiffStep br acc p = (acc.1 ++ [p.1], acc.2) := by
        simp [StateManager.branchDiffStep, h]
      have hch : branchChangedB br p = false := by
        simp [branchChangedB, h]
      rw [hstep, ih, hch]
      simp [h]
    | some bst =>
      by_cases hb : bst.last_commit = some p.2
      · have hstep : StateManager.branchDiffStep br acc p = acc := by
          simp [StateManager.branchDiffStep, h, hb]
        have hch : branchChangedB br p = false := by
          simp [branchChangedB, h, hb]
        rw [hstep, ih, hch]
        simp [h]
      · have hstep : StateManager.branchDiffStep br acc p = (acc.1, acc.2 ++ [p.1]) := by
          simp [StateManager.branchDiffStep, h, hb]
        have hch : branchChangedB br p = true := by
          simp [branchChangedB, h, hb]
        rw [hstep, ih, hch]
        simp [h]

theorem no_new_and_changed_iff (br : List (String × BranchSt))
    (shas : List (String × String)) :
    ((shas.filter (fun p => (lookupA br p.1).isNone)).map Prod.fst = [] ∧
      (shas.filter (branchChangedB br)).map Prod.fst = []) ↔
    ∀ p ∈ shas, ∃ bst, lookupA br p.1 = some bst ∧ bst.last_commit = some p.2 := by
  rw [List.map_eq_nil_iff, List.map_eq_nil_iff, List.filter_eq_nil_iff, List.filter_eq_nil_iff]
  constructor
  · rintro ⟨h1, h2⟩ p hp
    cases h : lookupA br p.1 with
    | none => exact absurd (by simp [h]) (h1 p hp)
    | some bst =>
      refine ⟨bst, rfl, ?_⟩
      by_contra hb
      exact h2 p hp (by simp [branchChangedB, h, hb])
  · intro h
    constructor
    · intro p hp
      obtain ⟨bst, hb, _⟩ := h p hp
      simp [hb]
    · intro p hp
      obtain ⟨bst, hb, he⟩ := h p hp
      simp [branchChangedB, hb, he]

/-- Claim C4: the default-branch fast path declares a repository
unchanged (and skips all further work) if and only if the current main
head sha equals the stored `last_commit`, every remotely listed branch's
sha equals its stored value, and no remotely listed branch is absent
from stored state. -/
theorem c4_fast_path_iff (state : State) (repo_key current_main_sha : String)
    (current_branch_shas : List (String × String)) :
    NewsProcessor.declares_unchanged true state repo_key current_main_sha
        current_branch_shas = true ↔
      (((lookupA state repo_key).getD {}).last_commit = some current_main_sha ∧
        ∀ p ∈ current_branch_shas,
          ∃ bst, lookupA ((lookupA state repo_key).getD {}).branches p.1 = some bst ∧
            bst.last_commit = some p.2) := by
  rw [← no_new_and_changed_iff ((lookupA state repo_key).getD {}).branches current_branch_shas]
  simp only [NewsProcessor.declares_unchanged, StateManager.main_branch_unchanged,
    StateManager.needs_repository_processing, branchDiff_foldl, List.nil_append]
  simp only [Bool.true_and, Bool.and_eq_true, Bool.not_eq_true', Bool.or_eq_false_iff,
    decide_eq_true_eq, decide_eq_false_iff_not, not_not]
  tauto

/-- Stored state used in the C4 witness: main sha `m1`, one branch `dev`
at sha `d1`. -/
def c4_state : State :=
  [(("o/r"),
    { last_commit := some ("m1")
      branches := [(("dev"), { last_commit := some ("d1") })] })]

/-- Witness for C4: the fast path fires on a matching snapshot and is
refused when a remotely listed branch sha differs. -/
theorem c4_witness :
    NewsProcessor.declares_unchanged true c4_state ("o/r") ("m1") [(("dev"), ("d1"))] = true ∧
    ¬ (NewsProcessor.declares_unchanged true c4_state ("o/r") ("m1")
        [(("dev"), ("d2"))] = true) := by
  constructor
  · exact (c4_fast_path_iff c4_state ("o/r") ("m1") [(("dev"), ("d1"))]).mpr
      ⟨by decide, by decide⟩
  · intro h
    obtain ⟨-, hall⟩ := (c4_fast_path_iff c4_state ("o/r") ("m1") [(("dev"), ("d2"))]).mp h
    obtain ⟨bst, hb, he⟩ := hall (("dev"), ("d2")) (by decide)
    have hbst : bst = { last_commit := some ("d1") } := by
      have : lookupA ((lookupA c4_state ("o/r")).getD {}).branches ("dev") =
          some { last_commit := some ("d1") } := by decide
      rw [this] at hb
      injection hb with hb'
      exact hb'.symm
    rw [hbst] at he
    exact absurd he (by decide)

/-- Stored state used in the C8 counterexample and witness: fork `f/x`
with one stored branch `old`. -/
def c8_state : State :=
  [(("o/r"),
    { processed_forks :=
        [(("f/x"),
          { branches := [(("old"), { last_ahead_commit := some ("aaa") })] })] })]

/-- Fork info reprocessing `f/x` without the stored branch `old`. -/
def c8_fi : ForkInfo :=
  { fork_name := ("f/x"), branches := []
    all_processed_branches := some [{ branch_name := ("new") }]
    commits_ahead := 0 }

/-- Counterexample to C8 as stated: `update_fork_state` replaces the
reprocessed fork's branch map wholesale, so the previously stored branch
entry `old` is removed by a state-updating operation. -/
theorem c8_counterexample :
    ¬ (StateManager.get_fork_branch_state c8_state ("o/r") ("f/x") ("old") = none) ∧
    StateManager.get_fork_branch_state
      (StateManager.update_fork_state c8_state ("o/r") c8_fi 9) ("o/r") ("f/x") ("old") =
      none := by
  refine ⟨by decide, by decide⟩

/-- Claim C8, amended: fork entries persist — `update_fork_state` never
touches other repository keys or other forks' entries, keeps (or
creates) the reprocessed fork's entry, and records every saved branch
analysis, including those with zero commits ahead; `update_branch_state`
never touches `processed_forks` or other branches. However, within the
reprocessed fork the branch map is rebuilt from this run's processed
branches, so stored branch entries of that fork absent from the current
run are dropped. -/
theorem c8_persistence_amended :
    (∀ (state : State) (repo_key : String) (fi : ForkInfo) (now : Nat) (k : String),
      ¬ (k = repo_key) →
      lookupA (StateManager.update_fork_state state repo_key fi now) k = lookupA state k) ∧
    (∀ (state : State) (repo_key : String) (fi : ForkInfo) (now : Nat) (f : String),
      ¬ (f = fi.fork_name) →
      lookupA ((lookupA (StateManager.update_fork_state state repo_key fi now)
          repo_key).getD {}).processed_forks f =
        lookupA ((lookupA state repo_key).getD {}).processed_forks f) ∧
    (∀ (state : State) (repo_key : String) (fi : ForkInfo) (now : Nat),
      ¬ (lookupA ((lookupA (StateManager.update_fork_state state repo_key fi now)
          repo_key).getD {}).processed_forks fi.fork_name = none)) ∧
    (∀ (state : State) (repo_key : String) (fi : ForkInfo) (now : Nat)
        (l : List BranchAnalysis) (ba : BranchAnalysis),
      fi.all_processed_branches = some l →
      (l.map (fun b => b.branch_name)).Nodup → ba ∈ l →
      StateManager.get_fork_branch_state (StateManager.update_fork_state state repo_key fi now)
          repo_key fi.fork_name ba.branch_name =
        some (StateManager.branchStateOfAnalysis now ba)) ∧
    (∀ (state : State) (repo_key branch_name : String) (commits : List Commit)
        (ahead now : Nat),
      ((lookupA (StateManager.update_branch_state state repo_key branch_name commits ahead now)
          repo_key).getD {}).processed_forks =
        ((lookupA state repo_key).getD {}).processed_forks) ∧
    (∀ (state : State) (repo_key branch_name : String) (commits : List Commit)
        (ahead now : Nat) (b : String),
      ¬ (b = branch_name) →
      StateManager.get_branch_state
          (StateManager.update_branch_state state repo_key branch_name commits ahead now)
          repo_key b =
        StateManager.get_branch_state state repo_key b) := by
  refine ⟨?_, ?_, ?_, ?_, ?_, ?_⟩
  · intro state repo_key fi now k hk
    simp only [StateManager.update_fork_state]
    exact lookupA_insertA_ne _ _ _ _ hk
  · intro state repo_key fi now f hf
    simp only [StateManager.update_fork_state, lookupA_insertA_self, Option.getD_some]
    exact lookupA_insertA_ne _ _ _ _ hf
  · intro state repo_key fi now
    simp only [StateManager.update_fork_state, lookupA_insertA_self, Option.getD_some]
    simp
  · intro state repo_key fi now l ba hap hnd hmem
    exact update_fork_state_lookup state repo_key fi now l ba hap hnd hmem
  · intro state repo_key branch_name commits ahead now
    simp only [StateManager.update_branch_state, lookupA_insertA_self, Option.getD_some]
  · intro state repo_key branch_name commits ahead now b hb
    simp only [StateManager.get_branch_state, StateManager.update_branch_state,
      lookupA_insertA_self, Option.getD_some]
    exact lookupA_insertA_ne _ _ _ _ hb

/-- Witness for C8 (amended): other-key preservation, other-fork
preservation, and the recording of a zero-ahead branch, at concrete
inputs. -/
theorem c8_witness :
    lookupA (StateManager.update_fork_state c8_state ("other/r") c8_fi 9) ("o/r") =
      lookupA c8_state ("o/r") ∧
    lookupA ((lookupA (StateManager.update_fork_state c8_state ("o/r")
        { c8_fi with fork_name := ("g/y") } 9) ("o/r")).getD {}).processed_forks ("f/x") =
      lookupA ((lookupA c8_state ("o/r")).getD {}).processed_forks ("f/x") ∧
    StateManager.get_fork_branch_state
        (StateManager.update_fork_state c8_state ("o/r") c8_fi 9) ("o/r") ("f/x") ("new") =
      some (StateManager.branchStateOfAnalysis 9 { branch_name := ("new") }) := by
  refine ⟨?_, ?_, ?_⟩
  · exact c8_persistence_amended.1 c8_state ("other/r") c8_fi 9 ("o/r") (by decide)
  · exact c8_persistence_amended.2.1 c8_state ("o/r") _ 9 ("f/x") (by decide)
  · exact c8_persistence_amended.2.2.2.1 c8_state ("o/r") c8_fi 9
      [{ branch_name := ("new") }] { branch_name := ("new") } rfl (by decide) (by decide)

theorem run_task_congr (s₁ s₂ : State) (t : ParallelBaseProcessor.Task)
    (h : ∀ k, lookupA s₁ k = lookupA s₂ k) :
    ∀ k, lookupA (ParallelBaseProcessor.run_task s₁ t) k =
         lookupA (ParallelBaseProcessor.run_task s₂ t) k := by
  intro k
  unfold ParallelBaseProcessor.run_task
  by_cases hk : k = t.repo_key
  · subst hk
    rw [lookupA_insertA_self, lookupA_insertA_self, h]
  · rw [lookupA_insertA_ne _ _ _ _ hk, lookupA_insertA_ne _ _ _ _ hk, h]

theorem run_tasks_congr (ts : List ParallelBaseProcessor.Task) :
    ∀ (s₁ s₂ : State), (∀ k, lookupA s₁ k = lookupA s₂ k) →
      ∀ k, lookupA (ParallelBaseProcessor.run_tasks s₁ ts) k =
           lookupA (ParallelBaseProcessor.run_tasks s₂ ts) k := by
  induction ts with
  | nil => intro s₁ s₂ h k; exact h k
  | cons t ts ih =>
    intro s₁ s₂ h k
    exact ih _ _ (run_task_congr s₁ s₂ t h) k

theorem run_task_swap (s : State) (t₁ t₂ : ParallelBaseProcessor.Task)
    (hne : ¬ (t₁.repo_key = t₂.repo_key)) :
    ∀ k, lookupA (ParallelBaseProcessor.run_task (ParallelBaseProcessor.run_task s t₁) t₂) k =
         lookupA (ParallelBaseProcessor.run_task (ParallelBaseProcessor.run_task s t₂) t₁) k := by
  intro k
  have hne' : ¬ (t₂.repo_key = t₁.repo_key) := fun hh => hne hh.symm
  unfold ParallelBaseProcessor.run_task
  rw [lookupA_insertA_ne s t₁.repo_key t₂.repo_key _ hne',
      lookupA_insertA_ne s t₂.repo_key t₁.repo_key _ hne]
  by_cases h2 : k = t₂.repo_key
  · subst h2
    rw [lookupA_insertA_self, lookupA_insertA_ne _ _ _ _ hne', lookupA_insertA_self]
  · rw [lookupA_insertA_ne _ _ _ _ h2]
    by_cases h1 : k = t₁.repo_key
    · subst h1
      rw [lookupA_insertA_self, lookupA_insertA_self]
    · rw [lookupA_insertA_ne _ _ _ _ h1, lookupA_insertA_ne _ _ _ _ h1,
          lookupA_insertA_ne _ _ _ _ h2]

theorem run_tasks_perm (ts₁ ts₂ : List ParallelBaseProcessor.Task) (hperm : ts₁.Perm ts₂) :
    ∀ s : State, (ts₁.map (fun t => t.repo_key)).Nodup →
      ∀ k, lookupA (ParallelBaseProcessor.run_tasks s ts₁) k =
           lookupA (ParallelBaseProcessor.run_tasks s ts₂) k := by
  induction hperm with
  | nil => intro s _ k; rfl
  | cons t h ih =>
    intro s hnd k
    rw [List.map_cons, List.nodup_cons] at hnd
    exact ih (ParallelBaseProcessor.run_task s t) hnd.2 k
  | swap t₁ t₂ l =>
    intro s hnd k
    have hne : ¬ (t₂.repo_key = t₁.repo_key) := by
      rw [List.map_cons, List.map_cons, List.nodup_cons] at hnd
      intro hh
      exact hnd.1 (by rw [hh]; exact List.mem_cons_self _ _)
    exact run_tasks_congr l _ _ (run_task_swap s t₂ t₁ hne) k
  | trans h₁ h₂ ih₁ ih₂ =>
    intro s hnd k
    rw [ih₁ s hnd k]
    exact ih₂ s (((h₁.map (fun t => t.repo_key)).nodup_iff).mp hnd) k

/-- Claim C9: for independent repositories (pairwise distinct repository
keys), any two completion orders of the same batch of tasks — covering a
worker pool of size 1 and of size N — leave the persisted state map with
identical contents at every key. -/
theorem c9_orchestrator_commutes (s : State) (ts₁ ts₂ : List ParallelBaseProcessor.Task)
    (hperm : ts₁.Perm ts₂) (hnd : (ts₁.map (fun t => t.repo_key)).Nodup) (k : String) :
    lookupA (ParallelBaseProcessor.run_tasks s ts₁) k =
      lookupA (ParallelBaseProcessor.run_tasks s ts₂) k :=
  run_tasks_perm ts₁ ts₂ hperm s hnd k

/-- Task on repository key `a/r` used in the C9 witness. -/
def c9_t1 : ParallelBaseProcessor.Task :=
  { repo_key := ("a/r"), run := fun _ => { last_commit := some ("s1") } }

/-- Task on repository key `b/r` used in the C9 witness. -/
def c9_t2 : ParallelBaseProcessor.Task :=
  { repo_key := ("b/r"), run := fun _ => { last_commit := some ("s2") } }

/-- Witness for C9: two independent tasks completed in either order leave
the same entry at key `a/r`. -/
theorem c9_witness :
    lookupA (ParallelBaseProcessor.run_tasks [] [c9_t2, c9_t1]) ("a/r") =
      lookupA (ParallelBaseProcessor.run_tasks [] [c9_t1, c9_t2]) ("a/r") :=
  c9_orchestrator_commutes [] [c9_t2, c9_t1] [c9_t1, c9_t2]
    (List.Perm.swap c9_t1 c9_t2 []) (by decide) ("a/r")

end GithubUtils
